import Mathlib

/-!
Shallow embedding of privacy/optimizers/gaussian_query.py.

The module implements the DPQuery interface for Gaussian sum and average
queries.  Records and sample states are arbitrarily nested structures of
numeric tensors; the embedding represents a tensor as a list of real
numbers (its flattened entries) and a nested structure as a finite tree
whose leaves are tensors.  TensorFlow's float arithmetic is modelled by
exact real arithmetic.  The randomness of tf.random_normal is modelled by
passing the standard-normal draws explicitly: a draw structure shaped like
the sample state, with the noise for a value v being stddev * draw.  The
side effect of recording to the privacy ledger (raised through
tf.control_dependencies in the source) is modelled as an explicit event
trace emitted by initial_sample_state before the zero state is produced.
-/

namespace GaussianDP

noncomputable section

/-- A tensor, flattened to its list of real entries. -/
abbrev Tensor := List ℝ

mutual
/-- A nested structure of tensors, as handled by tf.contrib.framework.nest:
leaves are tensors, internal nodes are ordered collections of substructures. -/
inductive Nested : Type where
  | leaf : Tensor → Nested
  | node : NestedList → Nested
inductive NestedList : Type where
  | nil : NestedList
  | cons : Nested → NestedList → NestedList
end

mutual
/-- nest.flatten: the ordered list of leaf tensors of a nested structure. -/
def flattenN : Nested → List Tensor
  | .leaf t => [t]
  | .node cs => flattenL cs
def flattenL : NestedList → List Tensor
  | .nil => []
  | .cons c cs => flattenN c ++ flattenL cs
end

mutual
/-- nest.map_structure with a single structure argument: apply a
tensor-level function to every leaf. -/
def mapLeaves (f : Tensor → Tensor) : Nested → Nested
  | .leaf t => .leaf (f t)
  | .node cs => .node (mapLeavesL f cs)
def mapLeavesL (f : Tensor → Tensor) : NestedList → NestedList
  | .nil => .nil
  | .cons c cs => .cons (mapLeaves f c) (mapLeavesL f cs)
end

mutual
/-- nest.map_structure with two structure arguments: combine matching
leaves elementwise.  The source asserts that both arguments share one
structure; on mismatched inputs (a caller contract violation) the model
totalises by truncation, keeping the first argument where the shapes
disagree. -/
def map2 (f : ℝ → ℝ → ℝ) : Nested → Nested → Nested
  | .leaf s, .leaf t => .leaf (List.zipWith f s t)
  | .node xs, .node ys => .node (map2L f xs ys)
  | x, _ => x
def map2L (f : ℝ → ℝ → ℝ) : NestedList → NestedList → NestedList
  | .cons x xs, .cons y ys => .cons (map2 f x y) (map2L f xs ys)
  | _, _ => .nil
end

mutual
/-- nest.pack_sequence_as, worker: rebuild a structure shaped like the
first argument from a flat list of tensors, returning the leftover list. -/
def packN : Nested → List Tensor → Nested × List Tensor
  | .leaf _, [] => (.leaf [], [])
  | .leaf _, t :: rest => (.leaf t, rest)
  | .node cs, ts =>
      let p := packL cs ts
      (.node p.1, p.2)
def packL : NestedList → List Tensor → NestedList × List Tensor
  | .nil, ts => (.nil, ts)
  | .cons c cs, ts =>
      let p := packN c ts
      let q := packL cs p.2
      (.cons p.1 q.1, q.2)
end

/-- nest.pack_sequence_as: repack a flat list of tensors into the shape of
the given structure. -/
def pack_sequence_as (x : Nested) (ts : List Tensor) : Nested :=
  (packN x ts).1

mutual
/-- Structural equality of two nested structures: same nesting and the
same per-leaf shape (modelled as the flattened leaf length). -/
def sameStructN : Nested → Nested → Bool
  | .leaf s, .leaf t => s.length == t.length
  | .node xs, .node ys => sameStructL xs ys
  | _, _ => false
def sameStructL : NestedList → NestedList → Bool
  | .nil, .nil => true
  | .cons x xs, .cons y ys => sameStructN x y && sameStructL xs ys
  | _, _ => false
end

/-- Sum of squared entries of one tensor. -/
def tensorSumSq (t : Tensor) : ℝ := (t.map (fun x => x ^ 2)).sum

/-- Sum of squared entries across a list of tensors. -/
def sumSq (ts : List Tensor) : ℝ := (ts.map tensorSumSq).sum

/-- tf.global_norm: the joint L2 norm of a list of tensors, the square
root of the sum of squares of all entries. -/
def global_norm (ts : List Tensor) : ℝ := Real.sqrt (sumSq ts)

/-- tf.clip_by_global_norm (external numeric engine, embedded from its
documented contract): every tensor is scaled by
clip_norm / max(global_norm, clip_norm), so the list is rescaled exactly
when its global norm exceeds clip_norm; the pre-clip global norm is
returned alongside. -/
def clip_by_global_norm (ts : List Tensor) (clip_norm : ℝ) : List Tensor × ℝ :=
  let n := global_norm ts
  let scale := clip_norm / max n clip_norm
  (ts.map (List.map (fun x => x * scale)), n)

/-- The joint L2 norm of all leaves of a nested structure. -/
def Nested.globalNorm (x : Nested) : ℝ := global_norm (flattenN x)

/-- All entries of a nested structure are zero. -/
def Nested.isAllZero (x : Nested) : Prop :=
  ∀ t ∈ flattenN x, ∀ v ∈ t, v = 0

/-- The privacy ledger handle.  The ledger is an external collaborator;
only its presence is observable inside this module, and its record calls
are modelled in the event trace. -/
abbrev Ledger := Unit

/-- Observable effects of one round: the ledger record call issued by
initial_sample_state, and the accumulation of one record. -/
inductive Event where
  | record_sum_query : ℝ → ℝ → Event
  | accumulate : Event

/-- GaussianSumQuery: accumulates clipped vectors, then adds Gaussian
noise to the sum. -/
structure GaussianSumQuery where
  l2_norm_clip : ℝ
  stddev : ℝ
  ledger : Option Ledger

/-- GaussianSumQuery.__init__: tf.to_float coercion is the identity in
the real-number model; the arguments are stored as given, with no
validation. -/
def GaussianSumQuery.init (l2_norm_clip stddev : ℝ) (ledger : Option Ledger) :
    GaussianSumQuery :=
  { l2_norm_clip := l2_norm_clip, stddev := stddev, ledger := ledger }

/-- GaussianSumQuery.initial_global_state: returns None. -/
def GaussianSumQuery.initial_global_state (_q : GaussianSumQuery) : Option Unit :=
  none

/-- GaussianSumQuery.derive_sample_params: returns the stored clip norm,
ignoring the global state. -/
def GaussianSumQuery.derive_sample_params {σ : Type} (q : GaussianSumQuery)
    (_global_state : σ) : ℝ :=
  q.l2_norm_clip

/-- GaussianSumQuery.initial_sample_state: if a ledger is present, records
(l2_norm_clip, stddev) to it (first component: the event trace emitted
before the state is available, as sequenced by tf.control_dependencies),
then returns a zero structure shaped like the template (second
component). -/
def GaussianSumQuery.initial_sample_state {σ : Type} (q : GaussianSumQuery)
    (_global_state : σ) (tensors : Nested) : List Event × Nested :=
  (match q.ledger with
    | some _ => [Event.record_sum_query q.l2_norm_clip q.stddev]
    | none => [],
   mapLeaves (fun t => t.map (fun _ => 0)) tensors)

/-- GaussianSumQuery.accumulate_record_impl: flatten the record, clip it
by global norm against params, repack, and add it elementwise to the
sample state; also return the pre-clip global norm. -/
def GaussianSumQuery.accumulate_record_impl (_q : GaussianSumQuery)
    (params : ℝ) (sample_state record : Nested) : Nested × ℝ :=
  let l2_norm_clip := params
  let record_as_list := flattenN record
  let p := clip_by_global_norm record_as_list l2_norm_clip
  let clipped := pack_sequence_as record p.1
  (map2 (· + ·) sample_state clipped, p.2)

/-- GaussianSumQuery.accumulate_record: accumulate_record_impl without
the returned norm. -/
def GaussianSumQuery.accumulate_record (q : GaussianSumQuery)
    (params : ℝ) (sample_state record : Nested) : Nested :=
  (q.accumulate_record_impl params sample_state record).1

/-- GaussianSumQuery.get_noised_result: add to every entry v of the
sample state the noise stddev * g, where g is the matching entry of the
standard-normal draw structure (tf.random_normal with the leaf's shape);
the global state is passed through. -/
def GaussianSumQuery.get_noised_result {σ : Type} (q : GaussianSumQuery)
    (draws sample_state : Nested) (global_state : σ) : Nested × σ :=
  (map2 (fun v g => v + q.stddev * g) sample_state draws, global_state)

/-- One full round of the sum query: derive params, initialise the sample
state (emitting any ledger event), then fold accumulate_record over the
records, each accumulation emitting an accumulate event. -/
def GaussianSumQuery.run_round {σ : Type} (q : GaussianSumQuery)
    (global_state : σ) (tensors : Nested) (records : List Nested) :
    List Event × Nested :=
  let params := q.derive_sample_params global_state
  records.foldl
    (fun acc r => (acc.1 ++ [Event.accumulate], q.accumulate_record params acc.2 r))
    (q.initial_sample_state global_state tensors)

/-- GaussianAverageQuery: accumulates clipped vectors, adds Gaussian
noise, and normalizes by a fixed denominator. -/
structure GaussianAverageQuery where
  numerator : GaussianSumQuery
  denominator : ℝ

/-- GaussianAverageQuery.__init__: builds the internal sum query and
stores the denominator (tf.to_float again the identity). -/
def GaussianAverageQuery.init (l2_norm_clip sum_stddev denominator : ℝ)
    (ledger : Option Ledger) : GaussianAverageQuery :=
  { numerator := GaussianSumQuery.init l2_norm_clip sum_stddev ledger,
    denominator := denominator }

/-- GaussianAverageQuery.initial_global_state: delegates to the sum
query. -/
def GaussianAverageQuery.initial_global_state (q : GaussianAverageQuery) :
    Option Unit :=
  q.numerator.initial_global_state

/-- GaussianAverageQuery.derive_sample_params: delegates to the sum
query. -/
def GaussianAverageQuery.derive_sample_params {σ : Type}
    (q : GaussianAverageQuery) (global_state : σ) : ℝ :=
  q.numerator.derive_sample_params global_state

/-- GaussianAverageQuery.initial_sample_state: delegates to the sum
query. -/
def GaussianAverageQuery.initial_sample_state {σ : Type}
    (q : GaussianAverageQuery) (global_state : σ) (tensors : Nested) :
    List Event × Nested :=
  q.numerator.initial_sample_state global_state tensors

/-- GaussianAverageQuery.accumulate_record: delegates to the sum query. -/
def GaussianAverageQuery.accumulate_record (q : GaussianAverageQuery)
    (params : ℝ) (sample_state record : Nested) : Nested :=
  q.numerator.accumulate_record params sample_state record

/-- GaussianAverageQuery.get_noised_result: gets the noised sum from the
internal sum query, then divides every entry by the fixed denominator
(tf.truediv); the delegated global state is returned unchanged. -/
def GaussianAverageQuery.get_noised_result {σ : Type} (q : GaussianAverageQuery)
    (draws sample_state : Nested) (global_state : σ) : Nested × σ :=
  let p := q.numerator.get_noised_result draws sample_state global_state
  (mapLeaves (List.map (fun v => v / q.denominator)) p.1, p.2)

end

/-! Helper lemmas about tensors and sums of squares. -/

/-- Squared sum of the empty tensor. -/
theorem tensorSumSq_nil : tensorSumSq [] = 0 := by
  simp [tensorSumSq]

/-- Squared sum of a tensor, unfolded one entry. -/
theorem tensorSumSq_cons (a : ℝ) (t : Tensor) :
    tensorSumSq (a :: t) = a ^ 2 + tensorSumSq t := by
  simp [tensorSumSq]

/-- A tensor's sum of squares is nonnegative. -/
theorem tensorSumSq_nonneg (t : Tensor) : 0 ≤ tensorSumSq t := by
  refine List.sum_nonneg ?_
  intro x hx
  obtain ⟨v, _, rfl⟩ := List.mem_map.mp hx
  exact sq_nonneg v

/-- Sum of squares of the empty tensor list. -/
theorem sumSq_nil : sumSq [] = 0 := by
  simp [sumSq]

/-- Sum of squares of a tensor list, unfolded one tensor. -/
theorem sumSq_cons (t : Tensor) (ts : List Tensor) :
    sumSq (t :: ts) = tensorSumSq t + sumSq ts := by
  simp [sumSq]

/-- The joint sum of squares is nonnegative. -/
theorem sumSq_nonneg (ts : List Tensor) : 0 ≤ sumSq ts := by
  refine List.sum_nonneg ?_
  intro x hx
  obtain ⟨t, _, rfl⟩ := List.mem_map.mp hx
  exact tensorSumSq_nonneg t

/-- Scaling a tensor scales its sum of squares quadratically. -/
theorem tensorSumSq_map_mul (c : ℝ) :
    ∀ t : Tensor, tensorSumSq (t.map (fun x => x * c)) = c ^ 2 * tensorSumSq t
  | [] => by simp [tensorSumSq]
  | a :: t => by
      rw [List.map_cons, tensorSumSq_cons, tensorSumSq_cons, tensorSumSq_map_mul c t]
      ring

/-- Scaling every tensor scales the joint sum of squares quadratically. -/
theorem sumSq_map_mul (c : ℝ) :
    ∀ ts : List Tensor,
      sumSq (ts.map (List.map (fun x => x * c))) = c ^ 2 * sumSq ts
  | [] => by simp [sumSq]
  | t :: ts => by
      rw [List.map_cons, sumSq_cons, sumSq_cons, sumSq_map_mul c ts, tensorSumSq_map_mul]
      ring

/-- A tensor with zero sum of squares has only zero entries. -/
theorem tensorSumSq_eq_zero : ∀ t : Tensor, tensorSumSq t = 0 → ∀ v ∈ t, v = 0
  | [] => by intro _ v hv; simp at hv
  | a :: t => by
      intro h v hv
      rw [tensorSumSq_cons] at h
      have ht := tensorSumSq_nonneg t
      have ha := sq_nonneg a
      rcases List.mem_cons.mp hv with rfl | hv'
      · have hz : v ^ 2 = 0 := by linarith
        exact sq_eq_zero_iff.mp hz
      · exact tensorSumSq_eq_zero t (by linarith) v hv'

/-- A tensor list with zero joint sum of squares has only zero entries. -/
theorem sumSq_eq_zero : ∀ ts : List Tensor, sumSq ts = 0 → ∀ t ∈ ts, ∀ v ∈ t, v = 0
  | [] => by intro _ t ht; simp at ht
  | t0 :: ts => by
      intro h t ht v hv
      rw [sumSq_cons] at h
      have h0 := tensorSumSq_nonneg t0
      have hs := sumSq_nonneg ts
      rcases List.mem_cons.mp ht with rfl | ht'
      · exact tensorSumSq_eq_zero t (by linarith) v hv
      · exact sumSq_eq_zero ts (by linarith) t ht' v hv

/-! Helper lemmas about lists. -/

/-- Pointwise addition of lists commutes with itself in its second and
third operands. -/
theorem zipWith_add_right_comm :
    ∀ s u v : List ℝ,
      List.zipWith (· + ·) (List.zipWith (· + ·) s u) v
        = List.zipWith (· + ·) (List.zipWith (· + ·) s v) u
  | [], _, _ => by simp
  | _ :: _, [], [] => by simp
  | _ :: _, [], _ :: _ => by simp
  | _ :: _, _ :: _, [] => by simp
  | a :: s, b :: u, c :: v => by
      simp only [List.zipWith_cons_cons]
      rw [zipWith_add_right_comm s u v, add_right_comm]

/-- Zipping with the left projection returns the left list when the
lengths agree. -/
theorem zipWith_fst :
    ∀ s t : Tensor, s.length = t.length →
      List.zipWith (fun v _ => v) s t = s
  | [], [] => by intro _; simp
  | [], _ :: _ => by intro h; simp at h
  | _ :: _, [] => by intro h; simp at h
  | a :: s, b :: t => by
      intro h
      simp only [List.zipWith_cons_cons, List.cons.injEq]
      exact ⟨trivial, zipWith_fst s t (by simpa using h)⟩

/-- Mapping a list to a constant depends only on its length. -/
theorem map_const_eq :
    ∀ s t : Tensor, s.length = t.length →
      s.map (fun _ => (0 : ℝ)) = t.map (fun _ => (0 : ℝ))
  | [], [] => by intro _; simp
  | [], _ :: _ => by intro h; simp at h
  | _ :: _, [] => by intro h; simp at h
  | a :: s, b :: t => by
      intro h
      simp only [List.map_cons, List.cons.injEq]
      exact ⟨trivial, map_const_eq s t (by simpa using h)⟩

/-- A map that fixes every entry of a list is the identity on it. -/
theorem map_fix_id (g : ℝ → ℝ) :
    ∀ t : Tensor, (∀ v ∈ t, g v = v) → t.map g = t
  | [] => by intro _; simp
  | a :: t => by
      intro h
      simp only [List.map_cons, List.cons.injEq]
      exact ⟨h a (by simp), map_fix_id g t (fun v hv => h v (by simp [hv]))⟩

/-! Helper lemmas about nested structures. -/

mutual
/-- Flattening commutes with mapping over leaves. -/
theorem flatten_mapLeaves (f : Tensor → Tensor) :
    ∀ x : Nested, flattenN (mapLeaves f x) = (flattenN x).map f
  | .leaf t => by simp [flattenN, mapLeaves]
  | .node cs => by
      simp only [flattenN, mapLeaves]
      exact flatten_mapLeavesL f cs
theorem flatten_mapLeavesL (f : Tensor → Tensor) :
    ∀ cs : NestedList, flattenL (mapLeavesL f cs) = (flattenL cs).map f
  | .nil => by simp [flattenL, mapLeavesL]
  | .cons c cs => by
      simp only [flattenL, mapLeavesL, List.map_append]
      rw [flatten_mapLeaves f c, flatten_mapLeavesL f cs]
end

mutual
/-- Repacking the mapped flattening of a structure maps its leaves. -/
theorem packN_map_flatten (f : Tensor → Tensor) :
    ∀ (x : Nested) (r : List Tensor),
      packN x ((flattenN x).map f ++ r) = (mapLeaves f x, r)
  | .leaf t, r => by simp [flattenN, packN, mapLeaves]
  | .node cs, r => by
      simp only [flattenN, mapLeaves, packN]
      rw [packL_map_flatten f cs r]
theorem packL_map_flatten (f : Tensor → Tensor) :
    ∀ (cs : NestedList) (r : List Tensor),
      packL cs ((flattenL cs).map f ++ r) = (mapLeavesL f cs, r)
  | .nil, r => by simp [flattenL, packL, mapLeavesL]
  | .cons c cs, r => by
      simp only [flattenL, packL, mapLeavesL, List.map_append, List.append_assoc]
      rw [packN_map_flatten f c, packL_map_flatten f cs r]
end

mutual
/-- Folding two structures into an accumulator by elementwise addition is
independent of the order of the two structures. -/
theorem map2_add_right_comm :
    ∀ x y z : Nested,
      map2 (· + ·) (map2 (· + ·) x y) z = map2 (· + ·) (map2 (· + ·) x z) y
  | .leaf s, .leaf u, .leaf v => by
      simp only [map2]
      rw [zipWith_add_right_comm]
  | .leaf s, .leaf u, .node zs => by simp [map2]
  | .leaf s, .node ys, .leaf v => by simp [map2]
  | .leaf s, .node ys, .node zs => by simp [map2]
  | .node xs, .leaf u, .leaf v => by simp [map2]
  | .node xs, .leaf u, .node zs => by simp [map2]
  | .node xs, .node ys, .leaf v => by simp [map2]
  | .node xs, .node ys, .node zs => by
      simp only [map2]
      rw [map2L_add_right_comm xs ys zs]
theorem map2L_add_right_comm :
    ∀ xs ys zs : NestedList,
      map2L (· + ·) (map2L (· + ·) xs ys) zs = map2L (· + ·) (map2L (· + ·) xs zs) ys
  | .nil, _, _ => by simp [map2L]
  | .cons _ _, .nil, .nil => by simp [map2L]
  | .cons _ _, .nil, .cons _ _ => by simp [map2L]
  | .cons _ _, .cons _ _, .nil => by simp [map2L]
  | .cons x xs, .cons y ys, .cons z zs => by
      simp only [map2L, NestedList.cons.injEq]
      exact ⟨map2_add_right_comm x y z, map2L_add_right_comm xs ys zs⟩
end

mutual
/-- Combining structurally equal structures with the left projection
returns the left structure. -/
theorem map2_left_id :
    ∀ x y : Nested, sameStructN x y = true → map2 (fun v _ => v) x y = x
  | .leaf s, .leaf t => by
      intro h
      simp only [sameStructN] at h
      simp only [map2, Nested.leaf.injEq]
      exact zipWith_fst s t (by simpa using h)
  | .leaf _, .node _ => by intro h; simp [sameStructN] at h
  | .node _, .leaf _ => by intro h; simp [sameStructN] at h
  | .node xs, .node ys => by
      intro h
      simp only [sameStructN] at h
      simp only [map2, Nested.node.injEq]
      exact map2L_left_id xs ys h
theorem map2L_left_id :
    ∀ xs ys : NestedList, sameStructL xs ys = true → map2L (fun v _ => v) xs ys = xs
  | .nil, .nil => by intro _; simp [map2L]
  | .nil, .cons _ _ => by intro h; simp [sameStructL] at h
  | .cons _ _, .nil => by intro h; simp [sameStructL] at h
  | .cons x xs, .cons y ys => by
      intro h
      simp only [sameStructL, Bool.and_eq_true] at h
      simp only [map2L, NestedList.cons.injEq]
      exact ⟨map2_left_id x y h.1, map2L_left_id xs ys h.2⟩
end

mutual
/-- Mapping an entrywise function that fixes every entry of a structure
is the identity on it. -/
theorem mapLeaves_map_id (g : ℝ → ℝ) :
    ∀ x : Nested, (∀ t ∈ flattenN x, ∀ v ∈ t, g v = v) →
      mapLeaves (List.map g) x = x
  | .leaf t => by
      intro h
      simp only [mapLeaves, Nested.leaf.injEq]
      exact map_fix_id g t (h t (by simp [flattenN]))
  | .node cs => by
      intro h
      simp only [mapLeaves, Nested.node.injEq]
      exact mapLeavesL_map_id g cs (by simpa [flattenN] using h)
theorem mapLeavesL_map_id (g : ℝ → ℝ) :
    ∀ cs : NestedList, (∀ t ∈ flattenL cs, ∀ v ∈ t, g v = v) →
      mapLeavesL (List.map g) cs = cs
  | .nil => by intro _; simp [mapLeavesL]
  | .cons c cs => by
      intro h
      simp only [mapLeavesL, NestedList.cons.injEq]
      constructor
      · exact mapLeaves_map_id g c (fun t ht => h t (by simp [flattenL, ht]))
      · exact mapLeavesL_map_id g cs (fun t ht => h t (by simp [flattenL, ht]))
end

mutual
/-- Mapping a length-preserving function over the leaves preserves the
structure. -/
theorem sameStruct_mapLeaves (f : Tensor → Tensor)
    (hf : ∀ t : Tensor, (f t).length = t.length) :
    ∀ x : Nested, sameStructN (mapLeaves f x) x = true
  | .leaf t => by simp [mapLeaves, sameStructN, hf]
  | .node cs => by
      simp only [mapLeaves, sameStructN]
      exact sameStructL_mapLeaves f hf cs
theorem sameStructL_mapLeaves (f : Tensor → Tensor)
    (hf : ∀ t : Tensor, (f t).length = t.length) :
    ∀ cs : NestedList, sameStructL (mapLeavesL f cs) cs = true
  | .nil => by simp [mapLeavesL, sameStructL]
  | .cons c cs => by
      simp only [mapLeavesL, sameStructL, Bool.and_eq_true]
      exact ⟨sameStruct_mapLeaves f hf c, sameStructL_mapLeaves f hf cs⟩
end

mutual
/-- The zero structure of a template depends only on its structure. -/
theorem zeros_eq_of_sameStruct :
    ∀ x y : Nested, sameStructN x y = true →
      mapLeaves (fun t => t.map (fun _ => (0 : ℝ))) x
        = mapLeaves (fun t => t.map (fun _ => (0 : ℝ))) y
  | .leaf s, .leaf t => by
      intro h
      simp only [sameStructN] at h
      simp only [mapLeaves, Nested.leaf.injEq]
      exact map_const_eq s t (by simpa using h)
  | .leaf _, .node _ => by intro h; simp [sameStructN] at h
  | .node _, .leaf _ => by intro h; simp [sameStructN] at h
  | .node xs, .node ys => by
      intro h
      simp only [sameStructN] at h
      simp only [mapLeaves, Nested.node.injEq]
      exact zerosL_eq_of_sameStruct xs ys h
theorem zerosL_eq_of_sameStruct :
    ∀ xs ys : NestedList, sameStructL xs ys = true →
      mapLeavesL (fun t => t.map (fun _ => (0 : ℝ))) xs
        = mapLeavesL (fun t => t.map (fun _ => (0 : ℝ))) ys
  | .nil, .nil => by intro _; simp [mapLeavesL]
  | .nil, .cons _ _ => by intro h; simp [sameStructL] at h
  | .cons _ _, .nil => by intro h; simp [sameStructL] at h
  | .cons x xs, .cons y ys => by
      intro h
      simp only [sameStructL, Bool.and_eq_true] at h
      simp only [mapLeavesL, NestedList.cons.injEq]
      exact ⟨zeros_eq_of_sameStruct x y h.1, zerosL_eq_of_sameStruct xs ys h.2⟩
end

/-! Helper lemmas about the queries. -/

/-- accumulate_record in closed form: it adds to the sample state the
record with every entry scaled by params / max(globalNorm, params). -/
theorem accumulate_record_eq_scale (q : GaussianSumQuery) (params : ℝ)
    (ss rec : Nested) :
    q.accumulate_record params ss rec
      = map2 (· + ·) ss
          (mapLeaves
            (List.map (fun x => x * (params / max rec.globalNorm params))) rec) := by
  show map2 (· + ·) ss
      (pack_sequence_as rec
        ((flattenN rec).map
          (List.map (fun x => x * (params / max rec.globalNorm params))))) = _
  unfold pack_sequence_as
  have h := packN_map_flatten
    (List.map (fun x => x * (params / max rec.globalNorm params))) rec []
  rw [List.append_nil] at h
  rw [h]

/-- The trace of a fold of accumulate_record steps extends the starting
trace with one accumulate event per record. -/
theorem foldl_accumulate_trace (q : GaussianSumQuery) (params : ℝ) :
    ∀ (records : List Nested) (p : List Event × Nested),
      (records.foldl
        (fun acc r =>
          (acc.1 ++ [Event.accumulate], q.accumulate_record params acc.2 r)) p).1
        = p.1 ++ records.map (fun _ => Event.accumulate)
  | [], p => by simp
  | r :: records, p => by
      rw [List.foldl_cons, foldl_accumulate_trace q params records]
      simp

/-- The global norm of a single scalar leaf is its absolute value. -/
theorem leaf_single_globalNorm (v : ℝ) :
    (Nested.leaf [v] : Nested).globalNorm = |v| := by
  unfold Nested.globalNorm global_norm
  have hS : sumSq (flattenN (Nested.leaf [v])) = v ^ 2 := by
    simp [flattenN, sumSq, tensorSumSq]
  rw [hS, Real.sqrt_sq_eq_abs]

/-- The event trace of a round is the initialisation trace followed by
one accumulate event per record. -/
theorem run_round_trace (σ : Type) (q : GaussianSumQuery) (gs : σ)
    (tmpl : Nested) (records : List Nested) :
    (q.run_round gs tmpl records).1
      = (q.initial_sample_state gs tmpl).1
          ++ records.map (fun _ => Event.accumulate) :=
  foldl_accumulate_trace q (q.derive_sample_params gs) records
    (q.initial_sample_state gs tmpl)

/-! The claims. -/

/-- Claim C1: for every record whose global L2 norm (computed jointly
across all flattened leaves) exceeds the clip norm passed as params,
accumulate_record rescales every leaf entry by clip_norm / norm — so the
clipped record is the original scaled elementwise by that factor
(direction unchanged) and its global norm equals the clip norm — repacks
it into the record's original nested structure, and returns the
elementwise sum of sample_state and the clipped record. -/
theorem accumulate_record_clips_oversized (q : GaussianSumQuery) (params : ℝ)
    (ss rec : Nested) (h0 : 0 ≤ params) (h1 : params < rec.globalNorm) :
    q.accumulate_record params ss rec
        = map2 (· + ·) ss
            (mapLeaves (List.map (fun x => x * (params / rec.globalNorm))) rec)
      ∧ (mapLeaves (List.map (fun x => x * (params / rec.globalNorm))) rec).globalNorm
          = params := by
  have hmax : max rec.globalNorm params = rec.globalNorm := max_eq_left h1.le
  have hn : 0 < rec.globalNorm := lt_of_le_of_lt h0 h1
  constructor
  · rw [accumulate_record_eq_scale, hmax]
  · have hflat := flatten_mapLeaves
      (List.map (fun x => x * (params / rec.globalNorm))) rec
    show global_norm
        (flattenN (mapLeaves (List.map (fun x => x * (params / rec.globalNorm))) rec))
      = params
    rw [hflat]
    unfold global_norm
    rw [sumSq_map_mul, Real.sqrt_mul (sq_nonneg _), Real.sqrt_sq_eq_abs,
        abs_of_nonneg (div_nonneg h0 hn.le)]
    have hg : Real.sqrt (sumSq (flattenN rec)) = rec.globalNorm := rfl
    rw [hg]
    exact div_mul_cancel₀ params hn.ne'

/-- Witness for C1: clip norm 1 against the single-leaf record [3, 4] of
global norm 5. -/
theorem accumulate_record_clips_oversized_witness :
    (0 : ℝ) ≤ 1 ∧ (1 : ℝ) < (Nested.leaf [3, 4]).globalNorm ∧
      ((GaussianSumQuery.init 9 9 none).accumulate_record 1
            (Nested.leaf [0, 0]) (Nested.leaf [3, 4])
          = map2 (· + ·) (Nested.leaf [0, 0])
              (mapLeaves
                (List.map (fun x => x * (1 / (Nested.leaf [3, 4]).globalNorm)))
                (Nested.leaf [3, 4]))
        ∧ (mapLeaves
            (List.map (fun x => x * (1 / (Nested.leaf [3, 4]).globalNorm)))
            (Nested.leaf [3, 4])).globalNorm = 1) := by
  have hnorm : (Nested.leaf [3, 4] : Nested).globalNorm = 5 := by
    unfold Nested.globalNorm global_norm
    have hS : sumSq (flattenN (Nested.leaf [3, 4])) = 25 := by
      norm_num [flattenN, sumSq, tensorSumSq]
    rw [hS, show (25 : ℝ) = 5 ^ 2 by norm_num,
        Real.sqrt_sq (by norm_num : (0 : ℝ) ≤ 5)]
  refine ⟨by norm_num, ?_, ?_⟩
  · rw [hnorm]; norm_num
  · exact accumulate_record_clips_oversized (GaussianSumQuery.init 9 9 none) 1
      (Nested.leaf [0, 0]) (Nested.leaf [3, 4]) (by norm_num)
      (by rw [hnorm]; norm_num)

/-- Claim C2: for every record whose global L2 norm is at most the clip
norm, accumulate_record adds the record to the sample state unscaled; in
particular a record of global norm 0 is treated as needing no rescale for
every nonnegative clip norm, including clip norm 0, with no division by
zero. -/
theorem accumulate_record_small_unscaled (q : GaussianSumQuery) (params : ℝ)
    (ss rec : Nested) (h : rec.globalNorm ≤ params) :
    q.accumulate_record params ss rec = map2 (· + ·) ss rec := by
  have h0 : 0 ≤ params := le_trans (Real.sqrt_nonneg _) h
  have hmax : max rec.globalNorm params = params := max_eq_right h
  rw [accumulate_record_eq_scale, hmax]
  rcases eq_or_lt_of_le h0 with h0' | h0'
  · -- clip norm 0: the record is globally zero and is left unchanged
    have hn0 : rec.globalNorm = 0 :=
      le_antisymm (h0' ▸ h) (Real.sqrt_nonneg _)
    have hS : sumSq (flattenN rec) = 0 := by
      have h1 : Real.sqrt (sumSq (flattenN rec)) = 0 := hn0
      have h2 := sumSq_nonneg (flattenN rec)
      nlinarith [Real.sq_sqrt h2]
    have hz := sumSq_eq_zero (flattenN rec) hS
    rw [mapLeaves_map_id]
    intro t ht v hv
    rw [hz t ht v hv]
    ring
  · -- positive clip norm: the scale factor is 1
    have hp : params / params = 1 := div_self h0'.ne'
    rw [mapLeaves_map_id]
    intro t ht v hv
    rw [hp, mul_one]

/-- Witness for C2: the degenerate case of clip norm 0 and the zero
record [0], whose global norm is 0. -/
theorem accumulate_record_small_unscaled_witness :
    (Nested.leaf [0] : Nested).globalNorm ≤ 0 ∧
      (GaussianSumQuery.init 9 9 none).accumulate_record 0
          (Nested.leaf [5]) (Nested.leaf [0])
        = map2 (· + ·) (Nested.leaf [5]) (Nested.leaf [0]) := by
  have h : (Nested.leaf [0] : Nested).globalNorm ≤ 0 := by
    unfold Nested.globalNorm global_norm
    have hS : sumSq (flattenN (Nested.leaf [0])) = 0 := by
      norm_num [flattenN, sumSq, tensorSumSq]
    rw [hS, Real.sqrt_zero]
  exact ⟨h, accumulate_record_small_unscaled (GaussianSumQuery.init 9 9 none) 0
    (Nested.leaf [5]) (Nested.leaf [0]) h⟩

/-- Claim C3 counterexample: constructing a GaussianSumQuery (or a
GaussianAverageQuery) with negative l2_norm_clip and stddev raises no
configuration error — the constructor is a total function that returns an
ordinary query storing the negative values, which then flow unchecked
into derive_sample_params at first use. -/
theorem init_accepts_negative :
    (GaussianSumQuery.init (-1) (-2) none).l2_norm_clip = -1
      ∧ (GaussianSumQuery.init (-1) (-2) none).stddev = -2
      ∧ (GaussianSumQuery.init (-1) (-2) none).derive_sample_params () = -1
      ∧ (GaussianAverageQuery.init (-1) (-2) 3 none).numerator.stddev = -2 :=
  ⟨rfl, rfl, rfl, rfl⟩

/-- Claim C3 amended: the constructors perform no sign validation — they
coerce l2_norm_clip and stddev to floating-point scalars and store them
exactly as given (negative values included), never failing at
construction; the average query builds its internal sum query from the
same arguments and stores the denominator. -/
theorem init_stores_unvalidated (c s d : ℝ) (l : Option Ledger) :
    GaussianSumQuery.init c s l
        = { l2_norm_clip := c, stddev := s, ledger := l }
      ∧ GaussianAverageQuery.init c s d l
        = { numerator := GaussianSumQuery.init c s l, denominator := d } :=
  ⟨rfl, rfl⟩

/-- Claim C4: GaussianAverageQuery.get_noised_result returns exactly the
internal sum query's noised result with every entry divided elementwise
by the fixed denominator, paired with the global state returned by the
internal sum query; concretely, a sum-query noised output [6, 9] with
denominator 3 yields [2, 3]. -/
theorem average_refines_sum_div :
    (∀ (σ : Type) (aq : GaussianAverageQuery) (draws ss : Nested) (gs : σ),
        aq.get_noised_result draws ss gs
          = (mapLeaves (List.map (fun v => v / aq.denominator))
              (aq.numerator.get_noised_result draws ss gs).1,
             (aq.numerator.get_noised_result draws ss gs).2))
      ∧ ((GaussianAverageQuery.init 1 0 3 none).get_noised_result
            (Nested.leaf [0, 0]) (Nested.leaf [6, 9]) ()).1
          = Nested.leaf [2, 3] := by
  constructor
  · intro σ aq draws ss gs
    rfl
  · norm_num [GaussianAverageQuery.get_noised_result,
      GaussianSumQuery.get_noised_result, GaussianAverageQuery.init,
      GaussianSumQuery.init, map2, mapLeaves]

/-- Claim C7: accumulation is order-independent in exact arithmetic —
for every pair of records a and b and every clip norm, accumulating
first a then b and accumulating first b then a into the zero-initialized
sample state of a round yield equal final sums. -/
theorem accumulate_order_independent (σ : Type) (q : GaussianSumQuery)
    (gs : σ) (tmpl a b : Nested) (params : ℝ) :
    q.accumulate_record params
        (q.accumulate_record params (q.initial_sample_state gs tmpl).2 a) b
      = q.accumulate_record params
          (q.accumulate_record params (q.initial_sample_state gs tmpl).2 b) a := by
  simp only [accumulate_record_eq_scale]
  exact map2_add_right_comm _ _ _

/-- Claim C9: the global state returned by get_noised_result, for both
the sum query and the average query, is the input global state passed
through unchanged, for a global state of arbitrary type; the initial
global state of both queries is the empty state None. -/
theorem global_state_passthrough :
    (∀ (σ : Type) (q : GaussianSumQuery) (draws ss : Nested) (gs : σ),
        (q.get_noised_result draws ss gs).2 = gs)
      ∧ (∀ (σ : Type) (aq : GaussianAverageQuery) (draws ss : Nested) (gs : σ),
          (aq.get_noised_result draws ss gs).2 = gs)
      ∧ (∀ q : GaussianSumQuery, q.initial_global_state = none)
      ∧ (∀ aq : GaussianAverageQuery, aq.initial_global_state = none) :=
  ⟨fun _ _ _ _ _ => rfl, fun _ _ _ _ _ => rfl, fun _ => rfl, fun _ => rfl⟩

/-- Claim C10: accumulate_record (and accumulate_record_impl) depends
only on its explicit arguments params, sample_state and record: two sum
queries constructed with arbitrary, possibly different, stddev, ledger
and stored l2_norm_clip produce identical outputs on identical inputs, so
clipping uses the caller-passed params and not the stored clip norm. -/
theorem accumulate_record_independent_of_query :
    ∀ (q1 q2 : GaussianSumQuery) (params : ℝ) (ss rec : Nested),
      q1.accumulate_record params ss rec = q2.accumulate_record params ss rec
        ∧ q1.accumulate_record_impl params ss rec
            = q2.accumulate_record_impl params ss rec :=
  fun _ _ _ _ _ => ⟨rfl, rfl⟩

/-- Claim C5: with stddev 0, get_noised_result returns the sample state
unchanged on every leaf; and in the end-to-end scenario with clip norm 1
and stddev 0, accumulating the single-leaf scalar records 3 and 4 (norms
3 and 4, each clipped to 1) into the zero state and noising yields
exactly 2, whatever standard-normal value was drawn. -/
theorem stddev_zero_identity :
    (∀ (σ : Type) (q : GaussianSumQuery) (draws ss : Nested) (gs : σ),
        q.stddev = 0 → sameStructN ss draws = true →
        (q.get_noised_result draws ss gs).1 = ss)
      ∧ ∀ d : ℝ,
          ((GaussianSumQuery.init 1 0 none).get_noised_result (Nested.leaf [d])
              ((GaussianSumQuery.init 1 0 none).accumulate_record
                ((GaussianSumQuery.init 1 0 none).derive_sample_params
                  (none : Option Unit))
                ((GaussianSumQuery.init 1 0 none).accumulate_record
                  ((GaussianSumQuery.init 1 0 none).derive_sample_params
                    (none : Option Unit))
                  (((GaussianSumQuery.init 1 0 none).initial_sample_state
                      (none : Option Unit) (Nested.leaf [3])).2)
                  (Nested.leaf [3]))
                (Nested.leaf [4]))
              (none : Option Unit)).1 = Nested.leaf [2] := by
  constructor
  · intro σ q draws ss gs h hs
    show map2 (fun v g => v + q.stddev * g) ss draws = ss
    rw [h]
    have hf : (fun v g : ℝ => v + 0 * g) = fun v _ => v := by
      funext v g
      ring
    rw [hf]
    exact map2_left_id ss draws hs
  · intro d
    have hp : (GaussianSumQuery.init 1 0 none).derive_sample_params
        (none : Option Unit) = 1 := rfl
    have hz : ((GaussianSumQuery.init 1 0 none).initial_sample_state
        (none : Option Unit) (Nested.leaf [3])).2 = Nested.leaf [0] := by
      show mapLeaves (fun t => t.map (fun _ => 0)) (Nested.leaf [3]) = _
      simp [mapLeaves]
    have h3 : (Nested.leaf [3] : Nested).globalNorm = 3 := by
      rw [leaf_single_globalNorm]
      exact abs_of_nonneg (by norm_num)
    have h4 : (Nested.leaf [4] : Nested).globalNorm = 4 := by
      rw [leaf_single_globalNorm]
      exact abs_of_nonneg (by norm_num)
    have ha1 : (GaussianSumQuery.init 1 0 none).accumulate_record 1
        (Nested.leaf [0]) (Nested.leaf [3]) = Nested.leaf [1] := by
      rw [accumulate_record_eq_scale]
      simp only [h3, show max (3 : ℝ) 1 = 3 by norm_num]
      norm_num [map2, mapLeaves]
    have ha2 : (GaussianSumQuery.init 1 0 none).accumulate_record 1
        (Nested.leaf [1]) (Nested.leaf [4]) = Nested.leaf [2] := by
      rw [accumulate_record_eq_scale]
      simp only [h4, show max (4 : ℝ) 1 = 4 by norm_num]
      norm_num [map2, mapLeaves]
    rw [hp, hz, ha1, ha2]
    norm_num [GaussianSumQuery.get_noised_result, GaussianSumQuery.init, map2]

/-- Witness for C5: a sum query with stddev 0 and a matching draw
structure. -/
theorem stddev_zero_identity_witness :
    (GaussianSumQuery.init 5 0 (some ())).stddev = 0
      ∧ sameStructN (Nested.leaf [4]) (Nested.leaf [7]) = true
      ∧ ((GaussianSumQuery.init 5 0 (some ())).get_noised_result
          (Nested.leaf [7]) (Nested.leaf [4]) ()).1 = Nested.leaf [4] := by
  have hs : sameStructN (Nested.leaf [4]) (Nested.leaf [7]) = true := by
    simp [sameStructN]
  exact ⟨rfl, hs,
    stddev_zero_identity.1 Unit (GaussianSumQuery.init 5 0 (some ()))
      (Nested.leaf [7]) (Nested.leaf [4]) () rfl hs⟩

/-- Claim C6: whenever a ledger is supplied, each round records exactly
one ledger call, whose parameters are the pair (clip norm as returned by
derive_sample_params, the constructed stddev), and the call precedes
every accumulate event of the round; when no ledger is supplied no
recording occurs, and the sample state produced is the same either
way. -/
theorem ledger_recorded_once (σ : Type) (q : GaussianSumQuery) (gs : σ)
    (tmpl : Nested) (records : List Nested) :
    (q.ledger.isSome = true →
        (q.run_round gs tmpl records).1
          = Event.record_sum_query (q.derive_sample_params gs) q.stddev
              :: records.map (fun _ => Event.accumulate))
      ∧ (q.ledger = none →
          (q.run_round gs tmpl records).1
            = records.map (fun _ => Event.accumulate))
      ∧ ∀ l1 l2 : Option Ledger,
          ((GaussianSumQuery.mk q.l2_norm_clip q.stddev l1).initial_sample_state
              gs tmpl).2
            = ((GaussianSumQuery.mk q.l2_norm_clip q.stddev l2).initial_sample_state
                gs tmpl).2 := by
  refine ⟨?_, ?_, fun l1 l2 => rfl⟩
  · intro h
    obtain ⟨u, hu⟩ := Option.isSome_iff_exists.mp h
    rw [run_round_trace]
    unfold GaussianSumQuery.initial_sample_state
    rw [hu]
    rfl
  · intro h
    rw [run_round_trace]
    unfold GaussianSumQuery.initial_sample_state
    rw [h]
    rfl

/-- Witness for C6: a concrete round with a ledger present and one with
no ledger. -/
theorem ledger_recorded_once_witness :
    ((GaussianSumQuery.init 2 3 (some ())).ledger.isSome = true
        ∧ ((GaussianSumQuery.init 2 3 (some ())).run_round ()
              (Nested.leaf [5]) [Nested.leaf [1]]).1
            = [Event.record_sum_query 2 3, Event.accumulate])
      ∧ ((GaussianSumQuery.init 2 3 none).ledger = none
        ∧ ((GaussianSumQuery.init 2 3 none).run_round ()
              (Nested.leaf [5]) [Nested.leaf [1]]).1
            = [Event.accumulate]) := by
  constructor
  · refine ⟨rfl, ?_⟩
    exact (ledger_recorded_once Unit (GaussianSumQuery.init 2 3 (some ())) ()
      (Nested.leaf [5]) [Nested.leaf [1]]).1 rfl
  · refine ⟨rfl, ?_⟩
    exact (ledger_recorded_once Unit (GaussianSumQuery.init 2 3 none) ()
      (Nested.leaf [5]) [Nested.leaf [1]]).2.1 rfl

/-- Claim C8: for every global state and record template,
initial_sample_state returns an all-zero structure with the same nesting
and per-leaf shape as the template, and the result does not depend on the
template's values, only on its structure and shapes. -/
theorem initial_sample_state_zeros (σ : Type) (q : GaussianSumQuery)
    (gs : σ) (tmpl : Nested) :
    sameStructN ((q.initial_sample_state gs tmpl).2) tmpl = true
      ∧ ((q.initial_sample_state gs tmpl).2).isAllZero
      ∧ ∀ tmpl2 : Nested, sameStructN tmpl tmpl2 = true →
          (q.initial_sample_state gs tmpl).2
            = (q.initial_sample_state gs tmpl2).2 := by
  refine ⟨?_, ?_, ?_⟩
  · show sameStructN (mapLeaves (fun t => t.map (fun _ => 0)) tmpl) tmpl = true
    exact sameStruct_mapLeaves _ (fun t => List.length_map t _) tmpl
  · show (mapLeaves (fun t => t.map (fun _ => 0)) tmpl).isAllZero
    unfold Nested.isAllZero
    intro t ht v hv
    rw [flatten_mapLeaves] at ht
    obtain ⟨t0, _, rfl⟩ := List.mem_map.mp ht
    rcases List.mem_map.mp hv with ⟨v0, _, hveq⟩
    exact hveq.symm
  · intro tmpl2 h
    show mapLeaves (fun t => t.map (fun _ => 0)) tmpl
        = mapLeaves (fun t => t.map (fun _ => 0)) tmpl2
    exact zeros_eq_of_sameStruct tmpl tmpl2 h

/-- Witness for C8: a nested single-leaf template, compared with a
template of equal structure but different values. -/
theorem initial_sample_state_zeros_witness :
    sameStructN
        (((GaussianSumQuery.init 1 1 none).initial_sample_state ()
            (Nested.node (.cons (.leaf [3]) .nil))).2)
        (Nested.node (.cons (.leaf [3]) .nil)) = true
      ∧ (((GaussianSumQuery.init 1 1 none).initial_sample_state ()
            (Nested.node (.cons (.leaf [3]) .nil))).2).isAllZero
      ∧ sameStructN (Nested.node (.cons (.leaf [3]) .nil))
          (Nested.node (.cons (.leaf [7]) .nil)) = true
      ∧ ((GaussianSumQuery.init 1 1 none).initial_sample_state ()
            (Nested.node (.cons (.leaf [3]) .nil))).2
          = ((GaussianSumQuery.init 1 1 none).initial_sample_state ()
              (Nested.node (.cons (.leaf [7]) .nil))).2 := by
  have h := initial_sample_state_zeros Unit (GaussianSumQuery.init 1 1 none) ()
    (Nested.node (.cons (.leaf [3]) .nil))
  have hss : sameStructN (Nested.node (.cons (.leaf [3]) .nil))
      (Nested.node (.cons (.leaf [7]) .nil)) = true := by
    simp [sameStructN, sameStructL]
  exact ⟨h.1, h.2.1, hss, h.2.2 _ hss⟩

end GaussianDP
